import Mathlib

/-!
# MCM block detector (`Detector.hpp`)

A shallow embedding of `Detector::DetectedBlock` (the run-header codec) and of
`Detector` (the look-ahead classifier), followed by the properties established
for them.

Conventions of the embedding.
* Machine integers are natural numbers; every place where the C++ narrows a
  value (an assignment to `uint8_t`, 32-bit arithmetic) carries an explicit
  `% 2 ^ w`.
* A `uint8_t*` that is written through is the list of the bytes stored, in
  order; one that is read through is the list of the bytes available, and a
  read past its end is `none`.
* A failed `assert` is `none`.
-/

namespace Detector

/-! ## `enum Profile` and `class DetectedBlock` -/

/-- The unscoped enumeration `Detector::Profile`: an integer type with three
named values.  `static_cast<Profile>(n)` keeps the integer `n`. -/
abbrev Profile := Nat

/-- Enumerator `kProfileText` (first, hence 0). -/
def kProfileText : Profile := 0
/-- Enumerator `kProfileBinary`. -/
def kProfileBinary : Profile := 1
/-- Enumerator `kProfileEOF`. -/
def kProfileEOF : Profile := 2

/-- The values that `enum Profile` names. -/
def Profile.isKnown (p : Profile) : Bool :=
  p == kProfileText || p == kProfileBinary || p == kProfileEOF

/-- Data members of `DetectedBlock`: `uint32_t length_; Profile profile_;`. -/
structure DetectedBlock where
  length_ : Nat
  profile_ : Profile
  deriving DecidableEq, Repr

namespace DetectedBlock

/-- Constant `static const size_t kLengthBytesShift = 6;` -/
def kLengthBytesShift : Nat := 6

/-- Constant `static const size_t kDataProfileMask = (1u << kLengthBytesShift) - 1;` -/
def kDataProfileMask : Nat := (1 <<< kLengthBytesShift) - 1

/-- Function `static size_t calculateLengthBytes(size_t length)`. -/
def calculateLengthBytes (length : Nat) : Nat :=
  if length &&& 0xFF000000 ≠ 0 then 4
  else if length &&& 0xFF0000 ≠ 0 then 3
  else if length &&& 0xFF00 ≠ 0 then 2
  else 1

/-- Function `static size_t getLengthBytes(uint8_t b)`. -/
def getLengthBytes (b : Nat) : Nat :=
  b >>> kLengthBytesShift

/-- The loop of `write`, entered at index `i` with `n` iterations left
(`n = length_bytes - i`): each one stores
`static_cast<uint8_t>(length_ >> (i * 8))`. -/
def writeLoop (length_ : Nat) : Nat → Nat → List Nat
  | 0, _ => []
  | n + 1, i => (length_ >>> (i * 8)) % 256 :: writeLoop length_ n (i + 1)

/-- Function `size_t write(uint8_t* ptr)`: the bytes stored through `ptr`, in order, and
the value returned, `ptr - orig_ptr`, the number of bytes stored. -/
def write (h : DetectedBlock) : List Nat × Nat :=
  let length_bytes := calculateLengthBytes h.length_
  let first := ((h.profile_ % 256) ||| (length_bytes <<< kLengthBytesShift)) % 256
  let out := first :: writeLoop h.length_ length_bytes 0
  (out, out.length)

/-- The loop of `read`, entered at index `i` with `n` iterations left: each one
does `length_ |= static_cast<uint32_t>(*(ptr++)) << (i * 8)`.  The result is
the final `length_` and the number of bytes the loop consumed. -/
def readLoop : Nat → Nat → List Nat → Nat → Nat → Option (Nat × Nat)
  | 0, _, _, length_, used => some (length_, used)
  | _ + 1, _, [], _, _ => none
  | n + 1, i, b :: ptr, length_, used =>
      readLoop n (i + 1) ptr (length_ ||| ((b <<< (i * 8)) % 2 ^ 32)) (used + 1)

/-- Function `size_t read(const uint8_t* ptr)`: the block as `read` leaves it and the
value returned, `ptr - orig_ptr`. -/
def read : List Nat → Option (DetectedBlock × Nat)
  | [] => none
  | c :: ptr =>
      let profile_ : Profile := c &&& kDataProfileMask
      let length_bytes := getLengthBytes c
      match readLoop length_bytes 0 ptr 0 1 with
      | none => none
      | some (length_, used) => some (⟨length_, profile_⟩, used)

end DetectedBlock

/-! ## Collaborators of `Detector` that live in other headers -/

/-- Modelled from the spec: the enumeration `DataProfile` (declared outside
`Detector.hpp`), of which `detect` uses the enumerators `kText`, `kBinary` and
`kWave`; the spec's content profiles text, binary and structured audio. -/
inductive DataProfile where
  | kText
  | kBinary
  | kWave
  deriving DecidableEq, Repr

/-- Modelled from the spec: the constant `KB` (declared outside `Detector.hpp`);
the look-ahead buffer of `64 * KB` bytes is the spec's 64 KiB. -/
def KB : Nat := 1024

/-- Modelled from the spec: `CyclicDeque<uint8_t>` of `CyclicBuffer.hpp`, a
fixed-capacity FIFO of bytes with random access by offset from the front.
`data` lists the queued bytes, front first. -/
structure CyclicDeque where
  data : List Nat
  cap : Nat
  deriving DecidableEq, Repr

namespace CyclicDeque

/-- Modelled from the spec: `size()`. -/
def size (q : CyclicDeque) : Nat := q.data.length

/-- Modelled from the spec: `capacity()`. -/
def capacity (q : CyclicDeque) : Nat := q.cap

/-- Modelled from the spec: `operator[]`, the byte at an offset from the front,
valid below `size()`. -/
def get? (q : CyclicDeque) (i : Nat) : Option Nat := q.data.get? i

/-- Modelled from the spec: `resize`, which gives the queue its fixed capacity;
the queue starts out empty. -/
def resize (_q : CyclicDeque) (n : Nat) : CyclicDeque := ⟨[], n⟩

/-- Modelled from the spec: `front()`, the frontmost byte of a non-empty queue. -/
def front (q : CyclicDeque) : Option Nat := q.data.head?

/-- Modelled from the spec: `pop_front()`, which removes the frontmost byte. -/
def pop_front (q : CyclicDeque) : CyclicDeque := ⟨q.data.tail, q.cap⟩

/-- Modelled from the spec: `push_back`, which appends a byte at the back. -/
def push_back (q : CyclicDeque) (b : Nat) : CyclicDeque := ⟨q.data ++ [b], q.cap⟩

end CyclicDeque

/-- The interface `detect` uses of `UTF8Decoder<true>` (declared in `UTF8.hpp`):
a default-constructed state, `update`, `err()` and `done()`. -/
structure TextValidator where
  σ : Type
  init : σ
  update : σ → Nat → σ
  err : σ → Bool
  done : σ → Bool

/-- Modelled from the spec: the state of `UTF8Decoder<true>` (the spec's
TextValidityTracker): the number of continuation bytes still expected (0 when a
lead byte is awaited) and the flags `done` and `err`. -/
structure UTF8State where
  remaining : Nat
  done : Bool
  err : Bool
  deriving DecidableEq, Repr

/-- Modelled from the spec: `UTF8Decoder<true>::update`.  Awaiting a new
sequence, the high bits of the byte give the sequence length (1 to 4 bytes), a
single-byte sequence completes at once and an invalid lead pattern sets `err`;
inside a sequence the byte must be a continuation byte (`10xxxxxx`), a mismatch
sets `err` and aborts the sequence; `done` holds exactly on the update that
completes a sequence. -/
def UTF8State.update (s : UTF8State) (c : Nat) : UTF8State :=
  if s.remaining = 0 then
    if c &&& 0x80 = 0 then ⟨0, true, false⟩
    else if c &&& 0xE0 = 0xC0 then ⟨1, false, false⟩
    else if c &&& 0xF0 = 0xE0 then ⟨2, false, false⟩
    else if c &&& 0xF8 = 0xF0 then ⟨3, false, false⟩
    else ⟨0, false, true⟩
  else if c &&& 0xC0 = 0x80 then ⟨s.remaining - 1, s.remaining = 1, false⟩
  else ⟨0, false, true⟩

/-- Modelled from the spec: `UTF8Decoder<true>` as a text validator; a fresh
decoder awaits a lead byte with both flags clear. -/
def UTF8Decoder : TextValidator where
  σ := UTF8State
  init := ⟨0, false, false⟩
  update := UTF8State.update
  err := UTF8State.err
  done := UTF8State.done

/-- Modelled from the spec: what the text validator promises on single-byte
units.  `Awaiting` singles out the states in which a new sequence is awaited; a
fresh decoder is in one, and there a byte below `0x80` is a complete unit:
`done` is set, `err` is not, and a new sequence is awaited again. -/
def TextValidator.SingleByteUnits (V : TextValidator) (Awaiting : V.σ → Prop) : Prop :=
  Awaiting V.init ∧
    ∀ (s : V.σ) (c : Nat), Awaiting s → c < 0x80 →
      Awaiting (V.update s c) ∧ V.done (V.update s c) = true ∧ V.err (V.update s c) = false

/-- Modelled from the spec: a byte that is invalid as a lead byte sets `err`
whenever a new sequence is awaited. -/
def TextValidator.InvalidLead (V : TextValidator) (Awaiting : V.σ → Prop) (c : Nat) : Prop :=
  ∀ s : V.σ, Awaiting s → V.err (V.update s c) = true

/-! ## `class Detector` -/

end Detector

/-- Data members of `class Detector` (`out_buffer_` and `detected_blocks_` are
never touched by the member functions and are left out). -/
structure Detector where
  is_forbidden : List Bool
  profile : Detector.DataProfile
  profile_length : Nat
  exe_pattern : List Nat
  buffer_ : Detector.CyclicDeque
  opt_var_ : Nat
  deriving DecidableEq, Repr

namespace Detector

/-- The array `forbidden_arr` of `init`. -/
def forbidden_arr : List Nat :=
  [0, 1, 2, 3, 4,
   5, 6, 7, 8, 11,
   12, 14, 15, 16, 17,
   19, 20, 21, 22, 23,
   24, 25, 26, 27, 28,
   29, 30, 31]

/-- The table `is_forbidden` as the two loops of `init` leave it: every entry
cleared, then the entries listed in `forbidden_arr` set. -/
def init_is_forbidden : List Bool :=
  forbidden_arr.foldl (fun tbl c => tbl.set c true) (List.replicate 256 false)

/-- Function `void init()`. -/
def init (d : Detector) : Detector :=
  { d with
    profile_length := 0
    profile := DataProfile.kBinary
    is_forbidden := init_is_forbidden
    buffer_ := d.buffer_.resize (64 * KB)
    exe_pattern :=
      [0x4D, 0x5A, 0x90, 0x00, 0x03, 0x00, 0x00, 0x00, 0x04, 0x00, 0x00, 0x00, 0xFF, 0xFF] }

/-- Function `size_t size() const`. -/
def size (d : Detector) : Nat := d.buffer_.size

/-- Function `bool empty() const`. -/
def empty (d : Detector) : Bool := d.size == 0

/-- Function `uint32_t at(uint32_t index) const`; `none` when the assertion
`index < buffer_.size()` fails. -/
def «at» (d : Detector) (index : Nat) : Option Nat :=
  if index < d.buffer_.size then d.buffer_.get? index else none

/-- The big-endian loop of `readBytes`, entered at index `i` with `n`
iterations left: `w = (w << 8) | at(pos + i)` in 32-bit arithmetic. -/
def readBytesBE (d : Detector) (pos : Nat) : Nat → Nat → Nat → Option Nat
  | 0, _, w => some w
  | n + 1, i, w =>
      match d.«at» ((pos + i) % 2 ^ 32) with
      | none => none
      | some b => readBytesBE d pos n (i + 1) (((w <<< 8) % 2 ^ 32) ||| b)

/-- The little-endian loop of `readBytes`, counting `i` down to zero:
`w = (w << 8) | at(pos + i - 1)` in 32-bit arithmetic. -/
def readBytesLE (d : Detector) (pos : Nat) : Nat → Nat → Option Nat
  | 0, w => some w
  | i + 1, w =>
      match d.«at» (((pos + (i + 1)) % 2 ^ 32 + (2 ^ 32 - 1)) % 2 ^ 32) with
      | none => none
      | some b => readBytesLE d pos i (((w <<< 8) % 2 ^ 32) ||| b)

/-- Function `uint32_t readBytes(uint32_t pos, uint32_t bytes = 4, bool big_endian = true)`;
`pos + bytes` is a 32-bit sum. -/
def readBytes (d : Detector) (pos : Nat) (bytes : Nat) (big_endian : Bool) : Option Nat :=
  if (pos + bytes) % 2 ^ 32 ≤ d.size then
    if big_endian then readBytesBE d pos bytes 0 0
    else readBytesLE d pos bytes 0
  else some 0

/-- The test `is_forbidden[static_cast<byte>(c)]`. -/
def forbidden (is_forbidden : List Bool) (c : Nat) : Bool :=
  is_forbidden.getD (c % 256) false

/-- The scanning loop of `detect` over the bytes from offset `i` on, with the
decoder state and `text_length` reached so far; the result is the final
`text_length`.  `i` and `text_length` are 32-bit. -/
def detectScan (V : TextValidator) (is_forbidden : List Bool) :
    List Nat → V.σ → Nat → Nat → Nat
  | [], _, _, text_length => text_length
  | c :: rest, decoder, i, text_length =>
      let decoder := V.update decoder c
      if V.err decoder || forbidden is_forbidden c then text_length
      else
        detectScan V is_forbidden rest decoder ((i + 1) % 2 ^ 32)
          (if V.done decoder then (i + 1) % 2 ^ 32 else text_length)

/-- The `text_length` that `detect` computes for the buffered window. -/
def textLength (V : TextValidator) (d : Detector) : Nat :=
  detectScan V d.is_forbidden d.buffer_.data V.init 0 0

/-- Function `DataProfile detect()`: the profile returned and the state left behind. -/
def detect (V : TextValidator) (d : Detector) : Option (DataProfile × Detector) :=
  if d.profile_length ≠ 0 then some (d.profile, d)
  else if false then
    some (DataProfile.kText, { d with profile_length := d.size, profile := DataProfile.kText })
  else
    let total := d.size
    let text_length := textLength V d
    if text_length ≥ min total 100 then
      some (DataProfile.kText,
        { d with profile := DataProfile.kText, profile_length := text_length })
    else do
      let binary : Option (DataProfile × Detector) :=
        some (DataProfile.kBinary,
          { d with profile := DataProfile.kBinary, profile_length := 1 })
      let fpos := 0
      let w0 ← d.readBytes fpos 4 true
      let fpos := (fpos + 4) % 2 ^ 32
      if false && w0 == 0x52494646 then
        let _chunk_size ← d.readBytes fpos 4 true
        let fpos := (fpos + 4) % 2 ^ 32
        let format ← d.readBytes fpos 4 true
        let fpos := (fpos + 4) % 2 ^ 32
        let subchunk_id ← d.readBytes fpos 4 true
        let fpos := (fpos + 4) % 2 ^ 32
        if format == 0x57415645 && subchunk_id == 0x666d7420 then
          let subchunk_size ← d.readBytes fpos 4 false
          let fpos := (fpos + 4) % 2 ^ 32
          if subchunk_size == 16 then
            let audio_format ← d.readBytes fpos 2 false
            let fpos := (fpos + 2) % 2 ^ 32
            let num_channels ← d.readBytes fpos 2 false
            let fpos := (fpos + 2) % 2 ^ 32
            if audio_format == 1 && (num_channels == 1 || num_channels == 2) then
              let fpos := (fpos + 4) % 2 ^ 32
              let fpos := (fpos + 4) % 2 ^ 32
              let fpos := (fpos + 2) % 2 ^ 32
              let _bits_per_sample ← d.readBytes fpos 2 false
              let fpos := (fpos + 2) % 2 ^ 32
              let subchunk2_id ← d.readBytes fpos 4 true
              let fpos := (fpos + 4) % 2 ^ 32
              if subchunk2_id == 0x64617461 then
                let subchunk2_size ← d.readBytes fpos 4 false
                let fpos := (fpos + 4) % 2 ^ 32
                some (DataProfile.kWave,
                  { d with
                    profile_length := (fpos + subchunk2_size) % 2 ^ 32
                    profile := DataProfile.kWave })
              else binary
            else binary
          else binary
        else binary
      else binary

/-- A RIFF/WAVE header (44 bytes) announcing 4 bytes of samples, and the samples. -/
def waveWindow : List Nat :=
  [0x52, 0x49, 0x46, 0x46, 40, 0, 0, 0, 0x57, 0x41, 0x56, 0x45,
   0x66, 0x6d, 0x74, 0x20, 16, 0, 0, 0, 1, 0, 2, 0,
   0x44, 0xAC, 0, 0, 0x10, 0xB1, 2, 0, 4, 0, 16, 0,
   0x64, 0x61, 0x74, 0x61, 4, 0, 0, 0,
   1, 2, 3, 4]

/-- A freshly initialised detector whose look-ahead buffer holds `bytes`. -/
def withWindow (bytes : List Nat) : Detector :=
  { is_forbidden := init_is_forbidden
    profile := DataProfile.kBinary
    profile_length := 0
    exe_pattern :=
      [0x4D, 0x5A, 0x90, 0x00, 0x03, 0x00, 0x00, 0x00, 0x04, 0x00, 0x00, 0x00, 0xFF, 0xFF]
    buffer_ := ⟨bytes, 64 * KB⟩
    opt_var_ := 0 }

/-- The macro `EOF` of `<cstdio>`, the negative `int` that signals the end of a
stream. -/
def EOF : Int := -1

/-- Modelled from the spec: `sin.get()` of the input source `TIn`, "get next
byte or end-of-stream".  The source is the list of the bytes it still holds. -/
def get : List Nat → Int × List Nat
  | [] => (EOF, [])
  | c :: sin => (c, sin)

/-- Function `void fill(TIn& sin)`: the state left behind and what remains of the
source.  On an exhausted source `get` yields `EOF` and the loop ends whether or
not the buffer is full; otherwise the loop test `size() < capacity()` decides,
and `push_back((uint8_t)c)` stores the byte `get` yielded. -/
def fill (d : Detector) : List Nat → Detector × List Nat
  | [] => (d, [])
  | c :: sin =>
      if d.buffer_.size < d.buffer_.capacity then
        fill { d with buffer_ := d.buffer_.push_back (c % 256) } sin
      else (d, c :: sin)

/-- Function `int read()`: the value returned and the state left behind; `none`
when the assertion `profile_length > 0` fails. -/
def read (d : Detector) : Option (Int × Detector) :=
  if d.empty then some (EOF, d)
  else if d.profile_length > 0 then
    match d.buffer_.front with
    | none => none
    | some ret =>
        some ((ret : Int),
          { d with profile_length := d.profile_length - 1, buffer_ := d.buffer_.pop_front })
  else none

/-- The values returned by `n` successive calls of `read()` and the state after
the last one; `none` as soon as one call fails its assertion. -/
def readMany : Nat → Detector → Option (List Int × Detector)
  | 0, d => some ([], d)
  | n + 1, d =>
      match d.read with
      | none => none
      | some (c, d') =>
          match readMany n d' with
          | none => none
          | some (cs, d'') => some (c :: cs, d'')

set_option maxRecDepth 8192

/-! ## Bit-level facts -/

/-- Masking with the byte at bit offset `k` gives zero exactly below `2 ^ k`,
for a value that has no bit above that byte. -/
theorem land_byte_mask_eq_zero_iff (x k : Nat) (hx : x < 2 ^ (k + 8)) :
    x &&& (0xFF <<< k) = 0 ↔ x < 2 ^ k := by
  constructor
  · intro h
    by_contra hge
    obtain ⟨i, hik, hbit⟩ := Nat.ge_two_pow_implies_high_bit_true (Nat.le_of_not_lt hge)
    have hi8 : i < k + 8 := by
      by_contra hc
      have hlt : x < 2 ^ i :=
        lt_of_lt_of_le hx (Nat.pow_le_pow_right (by decide) (Nat.le_of_not_lt hc))
      rw [Nat.testBit_lt_two_pow hlt] at hbit
      exact Bool.noConfusion hbit
    have hm : (x &&& (0xFF <<< k)).testBit i = true := by
      rw [Nat.testBit_and, hbit, Nat.testBit_shiftLeft]
      have h255 : (255 : Nat) = 2 ^ 8 - 1 := by norm_num
      rw [h255, Nat.testBit_two_pow_sub_one]
      simp
      omega
    rw [h, Nat.zero_testBit] at hm
    exact Bool.noConfusion hm
  · intro h
    apply Nat.eq_of_testBit_eq
    intro i
    rw [Nat.testBit_and, Nat.zero_testBit, Nat.testBit_shiftLeft]
    by_cases hik : i < k
    · simp [hik]
    · have hlt : x < 2 ^ i :=
        lt_of_lt_of_le h (Nat.pow_le_pow_right (by decide) (Nat.le_of_not_lt hik))
      rw [Nat.testBit_lt_two_pow hlt]
      simp

/-- A byte below `0x80` has its top bit clear. -/
theorem land_0x80_of_lt {c : Nat} (hc : c < 0x80) : c &&& 0x80 = 0 := by
  apply Nat.eq_of_testBit_eq
  intro i
  have h128 : (0x80 : Nat) = 2 ^ 7 := by norm_num
  rw [Nat.testBit_and, Nat.zero_testBit, h128, Nat.testBit_two_pow]
  by_cases hi : 7 = i
  · subst hi
    rw [Nat.testBit_lt_two_pow (by omega)]
    rfl
  · simp [hi]

/-! ## The header codec -/

namespace DetectedBlock

/-- What `calculateLengthBytes` computes on a 32-bit length, by ranges. -/
theorem calculateLengthBytes_eq (length : Nat) (h32 : length < 2 ^ 32) :
    calculateLengthBytes length =
      if length ≤ 0xFF then 1 else if length ≤ 0xFFFF then 2
      else if length ≤ 0xFFFFFF then 3 else 4 := by
  have k24 : length &&& 0xFF000000 = 0 ↔ length < 2 ^ 24 :=
    land_byte_mask_eq_zero_iff length 24 h32
  have k16 : length < 2 ^ 24 → (length &&& 0xFF0000 = 0 ↔ length < 2 ^ 16) :=
    fun h => land_byte_mask_eq_zero_iff length 16 h
  have k8 : length < 2 ^ 16 → (length &&& 0xFF00 = 0 ↔ length < 2 ^ 8) :=
    fun h => land_byte_mask_eq_zero_iff length 8 h
  unfold calculateLengthBytes
  by_cases h24 : length < 2 ^ 24
  · by_cases h16 : length < 2 ^ 16
    · by_cases h8 : length < 2 ^ 8
      · rw [if_neg (not_not.2 (k24.2 h24)), if_neg (not_not.2 ((k16 h24).2 h16)),
          if_neg (not_not.2 ((k8 h16).2 h8)), if_pos (by omega)]
      · rw [if_neg (not_not.2 (k24.2 h24)), if_neg (not_not.2 ((k16 h24).2 h16)),
          if_pos (fun e => h8 ((k8 h16).1 e)), if_neg (by omega), if_pos (by omega)]
    · rw [if_neg (not_not.2 (k24.2 h24)), if_pos (fun e => h16 ((k16 h24).1 e)),
        if_neg (by omega), if_neg (by omega), if_pos (by omega)]
  · rw [if_pos (fun e => h24 (k24.1 e)), if_neg (by omega), if_neg (by omega),
      if_neg (by omega)]

/-- The loop of `write` stores one byte per iteration. -/
theorem writeLoop_length (length_ n i : Nat) : (writeLoop length_ n i).length = n := by
  induction n generalizing i with
  | zero => rfl
  | succ n ih => simp [writeLoop, ih]

/-- The loop of `read` succeeds when enough bytes are available, and consumes
one byte per iteration. -/
theorem readLoop_some (n : Nat) :
    ∀ (i : Nat) (ptr : List Nat) (length_ used : Nat), n ≤ ptr.length →
      ∃ l, readLoop n i ptr length_ used = some (l, used + n) := by
  induction n with
  | zero => intro i ptr length_ used _; exact ⟨length_, rfl⟩
  | succ n ih =>
      intro i ptr length_ used h
      cases ptr with
      | nil => simp at h
      | cons b ptr =>
          obtain ⟨l, hl⟩ := ih (i + 1) ptr (length_ ||| ((b <<< (i * 8)) % 2 ^ 32)) (used + 1)
            (by simpa using h)
          refine ⟨l, ?_⟩
          rw [readLoop, hl]
          congr 2
          omega

end DetectedBlock

/-! ### Claims on the header codec -/

/-- C1 (header round trip), evaluated where it breaks: for the block with
profile `kProfileText` and length `0x1000000`, `write` stores the tag byte `0`
and the four length bytes `0, 0, 0, 1`, and `read` of those bytes gives back
length `0`: the count 4 does not fit the two bits above the tag, so `read`
sees no length byte at all. -/
theorem DetectedBlock.read_write_loses_length :
    (DetectedBlock.write ⟨0x1000000, kProfileText⟩).1 = [0, 0, 0, 0, 1] ∧
    DetectedBlock.read (DetectedBlock.write ⟨0x1000000, kProfileText⟩).1 =
      some (⟨0, kProfileText⟩, 1) := by
  decide

/-- C2 (minimal encoding size): for a length from 1 to `2 ^ 32 - 1`,
`calculateLengthBytes` is 1, 2, 3 or 4 by the ranges ending at `0xFF`, `0xFFFF`
and `0xFFFFFF`; it is the least byte count that can hold the length; and `write`
returns one more than it, a value from 2 to 5. -/
theorem DetectedBlock.write_size_minimal (h : DetectedBlock)
    (h1 : 1 ≤ h.length_) (h32 : h.length_ < 2 ^ 32) :
    DetectedBlock.calculateLengthBytes h.length_ =
        (if h.length_ ≤ 0xFF then 1 else if h.length_ ≤ 0xFFFF then 2
         else if h.length_ ≤ 0xFFFFFF then 3 else 4) ∧
      h.length_ < 256 ^ DetectedBlock.calculateLengthBytes h.length_ ∧
      (∀ n, h.length_ < 256 ^ n → DetectedBlock.calculateLengthBytes h.length_ ≤ n) ∧
      (DetectedBlock.write h).2 = 1 + DetectedBlock.calculateLengthBytes h.length_ ∧
      2 ≤ (DetectedBlock.write h).2 ∧ (DetectedBlock.write h).2 ≤ 5 := by
  have hc := DetectedBlock.calculateLengthBytes_eq h.length_ h32
  have hw : (DetectedBlock.write h).2 = 1 + DetectedBlock.calculateLengthBytes h.length_ := by
    simp [DetectedBlock.write, DetectedBlock.writeLoop_length, Nat.add_comm]
  have hmin : ∀ n, h.length_ < 256 ^ n →
      DetectedBlock.calculateLengthBytes h.length_ ≤ n := by
    intro n hn
    rcases n with _ | _ | _ | _ | n
    · simp at hn; omega
    · rw [hc]; norm_num at hn; split_ifs <;> omega
    · rw [hc]; norm_num at hn; split_ifs <;> omega
    · rw [hc]; norm_num at hn; split_ifs <;> omega
    · rw [hc]; split_ifs <;> omega
  refine ⟨hc, ?_, hmin, hw, ?_, ?_⟩
  · rw [hc]; split_ifs <;> norm_num <;> omega
  · rw [hw, hc]; split_ifs <;> omega
  · rw [hw, hc]; split_ifs <;> omega

/-- Witness of C2 at the block `(kProfileBinary, 0x10000)`. -/
theorem DetectedBlock.write_size_minimal_witness :
    (1 ≤ (⟨0x10000, kProfileBinary⟩ : DetectedBlock).length_ ∧
      (⟨0x10000, kProfileBinary⟩ : DetectedBlock).length_ < 2 ^ 32) ∧
    (DetectedBlock.calculateLengthBytes 0x10000 = 3 ∧
      (DetectedBlock.write ⟨0x10000, kProfileBinary⟩).2 = 1 + 3) := by
  have h := DetectedBlock.write_size_minimal ⟨0x10000, kProfileBinary⟩
    (by decide) (by decide)
  have h3 : DetectedBlock.calculateLengthBytes 0x10000 = 3 := by simpa using h.1
  exact ⟨⟨by decide, by decide⟩, h3, by rw [← h3]; exact h.2.2.2.1⟩

/-- C3 (header byte layout), evaluated where it breaks: for the block with
profile `kProfileBinary` and length `0xFFFFFFFF`, `calculateLengthBytes` is 4
and four length bytes are stored, but the first byte stored is `1`: its high
two bits are 0, so `getLengthBytes` of it is 0 and not 4. -/
theorem DetectedBlock.write_first_byte_drops_count :
    DetectedBlock.write ⟨0xFFFFFFFF, kProfileBinary⟩ = ([1, 0xFF, 0xFF, 0xFF, 0xFF], 5) ∧
    DetectedBlock.calculateLengthBytes 0xFFFFFFFF = 4 ∧
    DetectedBlock.getLengthBytes 1 = 0 := by
  decide

/-- C4 (decode consumes what encode produced), evaluated where it breaks: for
the block with profile `kProfileBinary` and length `0x1000000`, `write` returns
5 and `read` of the bytes written returns 1. -/
theorem DetectedBlock.read_consumes_less_than_written :
    (DetectedBlock.write ⟨0x1000000, kProfileBinary⟩).2 = 5 ∧
    (DetectedBlock.read (DetectedBlock.write ⟨0x1000000, kProfileBinary⟩).1).map Prod.snd =
      some 1 := by
  decide

/-- C5 as stated fails: on the bytes `0x43, 0x05`, whose first byte carries the
tag 3 (no enumerator of `Profile`), `read` reports no error; it returns a block
with profile tag 3 and length 5, having consumed 2 bytes. -/
theorem DetectedBlock.read_unknown_tag_accepted :
    DetectedBlock.read [0x43, 0x05] = some (⟨5, 3⟩, 2) ∧
    Profile.isKnown (0x43 % 64) = false := by
  decide

/-- C5, amended: `read` validates nothing.  Whenever the first byte `c` is
followed by at least `c >> 6` bytes, `read` succeeds, stores the low six bits of
`c` as the profile tag whatever their value, and returns `1 + (c >> 6)`. -/
theorem DetectedBlock.read_keeps_any_tag (c : Nat) (ptr : List Nat)
    (h : DetectedBlock.getLengthBytes c ≤ ptr.length) :
    ∃ length_, DetectedBlock.read (c :: ptr) =
      some (⟨length_, c % 64⟩, 1 + DetectedBlock.getLengthBytes c) := by
  obtain ⟨l, hl⟩ := DetectedBlock.readLoop_some (DetectedBlock.getLengthBytes c) 0 ptr 0 1 h
  refine ⟨l, ?_⟩
  have hmask : c &&& DetectedBlock.kDataProfileMask = c % 64 :=
    Nat.and_pow_two_sub_one_eq_mod c 6
  simp only [DetectedBlock.read, hl, hmask]

/-- Witness of amended C5 at the bytes `0xBF, 0x34, 0x12` (tag 63, two length
bytes). -/
theorem DetectedBlock.read_keeps_any_tag_witness :
    DetectedBlock.getLengthBytes 0xBF ≤ [0x34, 0x12].length ∧
      ∃ length_, DetectedBlock.read [0xBF, 0x34, 0x12] =
        some (⟨length_, 0xBF % 64⟩, 1 + DetectedBlock.getLengthBytes 0xBF) :=
  ⟨by decide, DetectedBlock.read_keeps_any_tag 0xBF [0x34, 0x12] (by decide)⟩

/-! ## The classifier -/

/-- The big-endian loop of `readBytes` succeeds when every index it visits is
inside the window. -/
theorem readBytesBE_some (d : Detector) (pos n : Nat) :
    ∀ (i w : Nat), pos + i + n ≤ d.size → pos + i + n ≤ 2 ^ 32 →
      ∃ w', readBytesBE d pos n i w = some w' := by
  induction n with
  | zero => intro i w _ _; exact ⟨w, rfl⟩
  | succ n ih =>
      intro i w hs h32
      have hlt : pos + i < d.buffer_.data.length := by
        have : d.size = d.buffer_.data.length := rfl
        omega
      have hmod : (pos + i) % 2 ^ 32 = pos + i := Nat.mod_eq_of_lt (by omega)
      have hat : d.«at» ((pos + i) % 2 ^ 32) = some (d.buffer_.data.get ⟨pos + i, hlt⟩) := by
        unfold «at»
        rw [hmod]
        simp [CyclicDeque.size, CyclicDeque.get?, hlt]
      obtain ⟨w', hw'⟩ := ih (i + 1)
        (((w <<< 8) % 2 ^ 32) ||| d.buffer_.data.get ⟨pos + i, hlt⟩) (by omega) (by omega)
      exact ⟨w', by rw [readBytesBE, hat]; exact hw'⟩

/-- The first probe of `detect`, `readBytes(0)`, always yields a word. -/
theorem readBytes_zero_some (d : Detector) : ∃ w, d.readBytes 0 4 true = some w := by
  unfold readBytes
  by_cases h : (0 + 4) % 2 ^ 32 ≤ d.size
  · rw [if_pos h]
    exact readBytesBE_some d 0 4 0 0 (by norm_num at h; omega) (by norm_num)
  · rw [if_neg h]
    exact ⟨0, rfl⟩

/-- When the scan finds less text than the threshold, `detect` commits a
one-byte binary run. -/
theorem detect_of_short_text (V : TextValidator) (d : Detector)
    (h0 : d.profile_length = 0) (hlt : textLength V d < min d.size 100) :
    detect V d =
      some (DataProfile.kBinary,
        { d with profile := DataProfile.kBinary, profile_length := 1 }) := by
  obtain ⟨w, hw⟩ := readBytes_zero_some d
  have hnot : ¬ (textLength V d ≥ min d.size 100) := not_le.2 hlt
  simp [detect, h0, hnot, hw]

/-- When the scan finds at least the threshold of text, `detect` commits it as a
text run. -/
theorem detect_of_long_text (V : TextValidator) (d : Detector)
    (h0 : d.profile_length = 0) (hge : min d.size 100 ≤ textLength V d) :
    detect V d =
      some (DataProfile.kText,
        { d with profile := DataProfile.kText, profile_length := textLength V d }) := by
  simp [detect, h0, hge]

/-- The scan stops at once on a forbidden byte. -/
theorem detectScan_forbidden (V : TextValidator) (tbl : List Bool) (c : Nat)
    (rest : List Nat) (s : V.σ) (i tl : Nat) (hf : forbidden tbl c = true) :
    detectScan V tbl (c :: rest) s i tl = tl := by
  simp [detectScan, hf]

/-- The modelled decoder, awaiting a lead byte, completes a unit on a byte below
`0x80` and awaits a lead byte again. -/
theorem UTF8State.update_ascii (s : UTF8State) (c : Nat) (hs : s.remaining = 0)
    (hc : c < 0x80) : UTF8State.update s c = ⟨0, true, false⟩ := by
  simp [UTF8State.update, hs, land_0x80_of_lt hc]

/-- The modelled decoder keeps the promise on single-byte units, the states
awaiting a sequence being those with no continuation byte outstanding. -/
theorem UTF8Decoder_singleByteUnits :
    UTF8Decoder.SingleByteUnits (fun s : UTF8State => s.remaining = 0) := by
  refine ⟨rfl, ?_⟩
  intro s c hs hc
  have hup : UTF8Decoder.update s c = (⟨0, true, false⟩ : UTF8State) :=
    UTF8State.update_ascii s c hs hc
  rw [hup]
  exact ⟨rfl, rfl, rfl⟩

/-- The modelled decoder rejects a stray continuation byte as a lead byte. -/
theorem UTF8Decoder_invalidLead_0x80 :
    UTF8Decoder.InvalidLead (fun s : UTF8State => s.remaining = 0) 0x80 := by
  intro s hs
  have hup : UTF8Decoder.update s 0x80 = (⟨0, false, true⟩ : UTF8State) := by
    show UTF8State.update s 0x80 = _
    unfold UTF8State.update
    rw [if_pos hs]
    decide
  rw [hup]
  rfl

/-- The scan runs through a prefix of clean single-byte text: every such byte
closes a unit, so `text_length` follows the index. -/
theorem detectScan_clean_append (V : TextValidator) (Awaiting : V.σ → Prop)
    (hV : V.SingleByteUnits Awaiting) (tbl : List Bool) (tail : List Nat) (l : List Nat) :
    ∀ (s : V.σ) (i tl : Nat), Awaiting s →
      (∀ b ∈ l, b < 0x80 ∧ forbidden tbl b = false) → i + l.length < 2 ^ 32 →
      ∃ s' : V.σ, Awaiting s' ∧
        detectScan V tbl (l ++ tail) s i tl =
          detectScan V tbl tail s' (i + l.length)
            (if l = [] then tl else i + l.length) := by
  induction l with
  | nil => intro s i tl hs _ _; exact ⟨s, hs, by simp⟩
  | cons b l ih =>
      intro s i tl hs hall h32
      have hb := hall b (List.mem_cons_self b l)
      obtain ⟨hnext, hdone, herr⟩ := hV.2 s b hs hb.1
      have hlen : (b :: l).length = l.length + 1 := rfl
      have hmod : (i + 1) % 2 ^ 32 = i + 1 := Nat.mod_eq_of_lt (by omega)
      obtain ⟨s', hs', hrec⟩ := ih (V.update s b) (i + 1) (i + 1) hnext
        (fun x hx => hall x (List.mem_cons_of_mem b hx)) (by omega)
      refine ⟨s', hs', ?_⟩
      have hstep : detectScan V tbl (b :: l ++ tail) s i tl =
          detectScan V tbl (l ++ tail) (V.update s b) (i + 1) (i + 1) := by
        rw [List.cons_append, detectScan]
        simp only [herr, hdone, hb.2, hmod, Bool.or_self, Bool.false_eq_true, if_false,
          if_true]
      rw [hstep, hrec]
      have hadd : i + 1 + l.length = i + (b :: l).length := by rw [hlen]; omega
      rw [hadd]
      congr 1
      by_cases hl : l = []
      · simp [hl]
      · simp [hl]

/-! ### Claims on `detect` -/

/-- C6 (a committed run is not re-classified): with `profile_length > 0`,
`detect` returns the current profile and leaves the whole state, in particular
`profile`, `profile_length` and the buffer, as it was; this for any text
validator and any buffer content. -/
theorem detect_committed_run_unchanged (V : TextValidator) (d : Detector)
    (h : 0 < d.profile_length) : detect V d = some (d.profile, d) := by
  have hne : d.profile_length ≠ 0 := Nat.pos_iff_ne_zero.1 h
  simp [detect, hne]

/-- Witness of C6: a detector with 2 bytes of a run still to drain. -/
theorem detect_committed_run_unchanged_witness :
    0 < ({ withWindow [0, 1, 2] with profile_length := 2 } : Detector).profile_length ∧
      detect UTF8Decoder { withWindow [0, 1, 2] with profile_length := 2 } =
        some (DataProfile.kBinary, { withWindow [0, 1, 2] with profile_length := 2 }) :=
  ⟨by decide,
    detect_committed_run_unchanged UTF8Decoder
      { withWindow [0, 1, 2] with profile_length := 2 } (by decide)⟩

/-- C7 (text threshold): with `profile_length == 0` and a window of `n >= 1`
bytes, each below `0x80` and not forbidden, `detect` returns `kText` and sets
`profile_length` to `n`; this for every text validator that takes a byte below
`0x80` as a complete unit.  (The window holds fewer than `2 ^ 32` bytes, as the
64 KiB buffer always does, so that the 32-bit index of the scan does not
wrap.) -/
theorem detect_ascii_window_is_text (V : TextValidator) (Awaiting : V.σ → Prop)
    (hV : V.SingleByteUnits Awaiting) (d : Detector) (h0 : d.profile_length = 0)
    (hn : 1 ≤ d.size) (hcap : d.size < 2 ^ 32)
    (hbytes : ∀ b ∈ d.buffer_.data, b < 0x80 ∧ forbidden d.is_forbidden b = false) :
    detect V d =
      some (DataProfile.kText,
        { d with profile := DataProfile.kText, profile_length := d.size }) := by
  have hsize : d.size = d.buffer_.data.length := rfl
  have hne : d.buffer_.data ≠ [] := by
    intro e
    rw [hsize, e] at hn
    exact absurd hn (by decide)
  obtain ⟨s', _, hscan⟩ := detectScan_clean_append V Awaiting hV d.is_forbidden []
    d.buffer_.data V.init 0 0 hV.1 hbytes (by omega)
  have htl : textLength V d = d.size := by
    unfold textLength
    rw [List.append_nil] at hscan
    rw [hscan, if_neg hne, detectScan, hsize, Nat.zero_add]
  have hd := detect_of_long_text V d h0 (by rw [htl]; exact Nat.min_le_left _ _)
  rw [htl] at hd
  exact hd

/-- Witness of C7: 150 bytes `a` in a fresh detector, with the
modelled UTF-8 decoder. -/
theorem detect_ascii_window_is_text_witness :
    (UTF8Decoder.SingleByteUnits (fun s : UTF8State => s.remaining = 0) ∧
      (withWindow (List.replicate 150 0x61)).profile_length = 0 ∧
      1 ≤ (withWindow (List.replicate 150 0x61)).size ∧
      (withWindow (List.replicate 150 0x61)).size < 2 ^ 32 ∧
      ∀ b ∈ (withWindow (List.replicate 150 0x61)).buffer_.data,
        b < 0x80 ∧ forbidden (withWindow (List.replicate 150 0x61)).is_forbidden b = false) ∧
    detect UTF8Decoder (withWindow (List.replicate 150 0x61)) =
      some (DataProfile.kText,
        { withWindow (List.replicate 150 0x61) with
          profile := DataProfile.kText
          profile_length := (withWindow (List.replicate 150 0x61)).size }) :=
  ⟨⟨UTF8Decoder_singleByteUnits, by decide, by decide, by decide, by decide⟩,
    detect_ascii_window_is_text UTF8Decoder (fun s : UTF8State => s.remaining = 0)
      UTF8Decoder_singleByteUnits (withWindow (List.replicate 150 0x61))
      (by decide) (by decide) (by decide) (by decide)⟩

/-- C8 (forbidden-byte override): with `profile_length == 0` and a non-empty
window whose first byte is forbidden, `detect` returns `kBinary` and sets
`profile_length` to 1, whatever follows and whatever the text validator says. -/
theorem detect_forbidden_first_is_binary (V : TextValidator) (d : Detector)
    (c : Nat) (rest : List Nat) (h0 : d.profile_length = 0)
    (hbuf : d.buffer_.data = c :: rest) (hf : forbidden d.is_forbidden c = true) :
    detect V d =
      some (DataProfile.kBinary,
        { d with profile := DataProfile.kBinary, profile_length := 1 }) := by
  apply detect_of_short_text V d h0
  have htl : textLength V d = 0 := by
    unfold textLength
    rw [hbuf]
    exact detectScan_forbidden V d.is_forbidden c rest V.init 0 0 hf
  have hsize : d.size = rest.length + 1 := by
    show d.buffer_.data.length = _
    rw [hbuf]
    rfl
  rw [htl, hsize]
  omega

/-- Witness of C8: a window that starts with the byte 0 and goes on as text. -/
theorem detect_forbidden_first_is_binary_witness :
    ((withWindow [0, 72, 105]).profile_length = 0 ∧
      (withWindow [0, 72, 105]).buffer_.data = 0 :: [72, 105] ∧
      forbidden (withWindow [0, 72, 105]).is_forbidden 0 = true) ∧
    detect UTF8Decoder (withWindow [0, 72, 105]) =
      some (DataProfile.kBinary,
        { withWindow [0, 72, 105] with profile := DataProfile.kBinary, profile_length := 1 }) :=
  ⟨⟨by decide, by decide, by decide⟩,
    detect_forbidden_first_is_binary UTF8Decoder (withWindow [0, 72, 105]) 0 [72, 105]
      (by decide) (by decide) (by decide)⟩

/-- C9 (a short valid run is binary): with `profile_length == 0` and a window
that starts with `k < 100` bytes below `0x80`, none forbidden, followed at once
by a byte that is forbidden or invalid as a lead byte, `detect` returns
`kBinary` with `profile_length == 1`; this for every text validator that takes
a byte below `0x80` as a complete unit. -/
theorem detect_short_run_is_binary (V : TextValidator) (Awaiting : V.σ → Prop)
    (hV : V.SingleByteUnits Awaiting) (d : Detector) (run : List Nat) (c : Nat)
    (rest : List Nat) (h0 : d.profile_length = 0)
    (hbuf : d.buffer_.data = run ++ c :: rest) (hk : run.length < 100)
    (hrun : ∀ b ∈ run, b < 0x80 ∧ forbidden d.is_forbidden b = false)
    (hc : forbidden d.is_forbidden c = true ∨ V.InvalidLead Awaiting c) :
    detect V d =
      some (DataProfile.kBinary,
        { d with profile := DataProfile.kBinary, profile_length := 1 }) := by
  apply detect_of_short_text V d h0
  obtain ⟨s', hs', hscan⟩ := detectScan_clean_append V Awaiting hV d.is_forbidden
    (c :: rest) run V.init 0 0 hV.1 hrun (by omega)
  have hstop : ∀ tl, detectScan V d.is_forbidden (c :: rest) s' (0 + run.length) tl = tl := by
    intro tl
    rcases hc with hf | he
    · exact detectScan_forbidden V d.is_forbidden c rest s' _ tl hf
    · rw [detectScan]
      simp only [he s' hs', Bool.true_or, if_true]
  have htl : textLength V d ≤ run.length := by
    unfold textLength
    rw [hbuf, hscan, hstop]
    split_ifs <;> omega
  have hsize : d.size = run.length + (rest.length + 1) := by
    show d.buffer_.data.length = _
    rw [hbuf, List.length_append]
    rfl
  rw [hsize]
  omega

/-- Witness of C9: ten text bytes followed by a stray continuation byte, with
the modelled UTF-8 decoder. -/
theorem detect_short_run_is_binary_witness :
    (UTF8Decoder.SingleByteUnits (fun s : UTF8State => s.remaining = 0) ∧
      (withWindow (List.replicate 10 0x61 ++ 0x80 :: [33])).profile_length = 0 ∧
      (withWindow (List.replicate 10 0x61 ++ 0x80 :: [33])).buffer_.data = List.replicate 10 0x61 ++ 0x80 :: [33] ∧
      (List.replicate 10 0x61).length < 100 ∧
      (∀ b ∈ List.replicate 10 0x61,
        b < 0x80 ∧ forbidden (withWindow (List.replicate 10 0x61 ++ 0x80 :: [33])).is_forbidden b = false) ∧
      (forbidden (withWindow (List.replicate 10 0x61 ++ 0x80 :: [33])).is_forbidden 0x80 = true ∨
        UTF8Decoder.InvalidLead (fun s : UTF8State => s.remaining = 0) 0x80)) ∧
    detect UTF8Decoder (withWindow (List.replicate 10 0x61 ++ 0x80 :: [33])) =
      some (DataProfile.kBinary,
        { withWindow (List.replicate 10 0x61 ++ 0x80 :: [33]) with
          profile := DataProfile.kBinary, profile_length := 1 }) :=
  ⟨⟨UTF8Decoder_singleByteUnits, by decide, by decide, by decide, by decide,
      Or.inr UTF8Decoder_invalidLead_0x80⟩,
    detect_short_run_is_binary UTF8Decoder (fun s : UTF8State => s.remaining = 0)
      UTF8Decoder_singleByteUnits (withWindow (List.replicate 10 0x61 ++ 0x80 :: [33])) (List.replicate 10 0x61) 0x80 [33]
      (by decide) (by decide) (by decide) (by decide)
      (Or.inr UTF8Decoder_invalidLead_0x80)⟩

/-- C10 as stated fails: the window `waveWindow` is not text (the scan stops at
offset 5), begins with the magic `RIFF`, carries the format tag `WAVE`, a
16-byte `fmt ` sub-chunk with audio format 1 and 2 channels, and a `data`
sub-chunk announcing 4 bytes after the 44 bytes of header; `detect` returns
`kBinary` with `profile_length == 1`, not `kWave` with 48. -/
theorem detect_wave_window_is_binary :
    (withWindow waveWindow).profile_length = 0 ∧
    textLength UTF8Decoder (withWindow waveWindow) < min (withWindow waveWindow).size 100 ∧
    (withWindow waveWindow).readBytes 0 4 true = some 0x52494646 ∧
    (withWindow waveWindow).readBytes 8 4 true = some 0x57415645 ∧
    (withWindow waveWindow).readBytes 12 4 true = some 0x666d7420 ∧
    (withWindow waveWindow).readBytes 16 4 false = some 16 ∧
    (withWindow waveWindow).readBytes 20 2 false = some 1 ∧
    (withWindow waveWindow).readBytes 22 2 false = some 2 ∧
    (withWindow waveWindow).readBytes 36 4 true = some 0x64617461 ∧
    (withWindow waveWindow).readBytes 40 4 false = some 4 ∧
    detect UTF8Decoder (withWindow waveWindow) =
      some (DataProfile.kBinary,
        { withWindow waveWindow with profile := DataProfile.kBinary, profile_length := 1 }) ∧
    detect UTF8Decoder (withWindow waveWindow) ≠
      some (DataProfile.kWave,
        { withWindow waveWindow with profile := DataProfile.kWave, profile_length := 48 }) := by
  decide

/-- C10, amended: the container sniffing of `detect` is switched off
(`false && w0 == 0x52494646`), so with `profile_length == 0` and a window that
is not text (`text_length < min(size, 100)`), `detect` returns `kBinary` and
sets `profile_length` to 1 whatever the window begins with, a RIFF/WAVE header
included; it does not return `kWave`. -/
theorem detect_not_text_is_binary (V : TextValidator) (d : Detector)
    (h0 : d.profile_length = 0) (hnt : textLength V d < min d.size 100) :
    detect V d =
        some (DataProfile.kBinary,
          { d with profile := DataProfile.kBinary, profile_length := 1 }) ∧
      (detect V d).map Prod.fst ≠ some DataProfile.kWave := by
  have h := detect_of_short_text V d h0 hnt
  refine ⟨h, ?_⟩
  rw [h]
  intro e
  exact DataProfile.noConfusion (Option.some.inj e)

/-- Witness of amended C10: a window that holds the magic `RIFF`, a zero chunk
size and the tag `WAVE`. -/
theorem detect_not_text_is_binary_witness :
    ((withWindow [0x52, 0x49, 0x46, 0x46, 0, 0, 0, 0, 0x57, 0x41, 0x56, 0x45]).profile_length
        = 0 ∧
      textLength UTF8Decoder
          (withWindow [0x52, 0x49, 0x46, 0x46, 0, 0, 0, 0, 0x57, 0x41, 0x56, 0x45]) <
        min (withWindow [0x52, 0x49, 0x46, 0x46, 0, 0, 0, 0, 0x57, 0x41, 0x56, 0x45]).size
          100) ∧
    (detect UTF8Decoder
          (withWindow [0x52, 0x49, 0x46, 0x46, 0, 0, 0, 0, 0x57, 0x41, 0x56, 0x45]) =
        some (DataProfile.kBinary,
          { withWindow [0x52, 0x49, 0x46, 0x46, 0, 0, 0, 0, 0x57, 0x41, 0x56, 0x45] with
            profile := DataProfile.kBinary, profile_length := 1 }) ∧
      (detect UTF8Decoder
          (withWindow [0x52, 0x49, 0x46, 0x46, 0, 0, 0, 0, 0x57, 0x41, 0x56, 0x45])).map
        Prod.fst ≠ some DataProfile.kWave) :=
  ⟨⟨by decide, by decide⟩,
    detect_not_text_is_binary UTF8Decoder
      (withWindow [0x52, 0x49, 0x46, 0x46, 0, 0, 0, 0, 0x57, 0x41, 0x56, 0x45])
      (by decide) (by decide)⟩

/-! ## `read` and `fill` -/

/-- One call of `read` on a non-empty buffer with a run committed: the front
byte is returned and removed, and `profile_length` goes down by one. -/
theorem read_cons (d : Detector) (b : Nat) (rest : List Nat)
    (hbuf : d.buffer_.data = b :: rest) (hpl : 0 < d.profile_length) :
    d.read = some ((b : Int),
      { d with profile_length := d.profile_length - 1, buffer_ := ⟨rest, d.buffer_.cap⟩ }) := by
  have hne : d.empty = false := by
    simp [empty, size, CyclicDeque.size, hbuf]
  simp [read, hne, hpl, CyclicDeque.front, CyclicDeque.pop_front, hbuf]

/-- On an empty buffer `read` returns `EOF` and changes nothing. -/
theorem read_nil (d : Detector) (hbuf : d.buffer_.data = []) : d.read = some (EOF, d) := by
  have he : d.empty = true := by
    simp [empty, size, CyclicDeque.size, hbuf]
  simp [read, he]

/-- Draining: `k` calls of `read`, with at least `k` bytes buffered and at least
`k` bytes of the run left, return the first `k` bytes in order and leave the
rest. -/
theorem readMany_drain (k : Nat) :
    ∀ d : Detector, k ≤ d.profile_length → k ≤ d.size →
      readMany k d = some ((d.buffer_.data.take k).map Int.ofNat,
        { d with
          profile_length := d.profile_length - k
          buffer_ := ⟨d.buffer_.data.drop k, d.buffer_.cap⟩ }) := by
  induction k with
  | zero => intro d _ _; rfl
  | succ k ih =>
      intro d hpl hsz
      have hsize : d.size = d.buffer_.data.length := rfl
      cases hdata : d.buffer_.data with
      | nil =>
          rw [hsize, hdata] at hsz
          exact absurd hsz (by simp)
      | cons b rest =>
          have hr := read_cons d b rest hdata (by omega)
          have hrest : rest.length = d.size - 1 := by
            rw [hsize, hdata]
            simp
          have hnext := ih
            { d with profile_length := d.profile_length - 1, buffer_ := ⟨rest, d.buffer_.cap⟩ }
            (by show k ≤ d.profile_length - 1; omega)
            (by show k ≤ rest.length; omega)
          rw [readMany, hr]
          simp only [hnext]
          have hsub : d.profile_length - 1 - k = d.profile_length - (k + 1) := by omega
          simp [hsub]

/-- What `fill` does, by induction on the source: it appends the first
`min (capacity - size) m` bytes and leaves the rest in the source. -/
theorem fill_spec (sin : List Nat) :
    ∀ d : Detector, (∀ c ∈ sin, c < 256) →
      fill d sin =
        ({ d with buffer_ :=
            ⟨d.buffer_.data ++ sin.take (min (d.buffer_.capacity - d.size) sin.length),
              d.buffer_.cap⟩ },
          sin.drop (min (d.buffer_.capacity - d.size) sin.length)) := by
  induction sin with
  | nil => intro d _; simp [fill]
  | cons c sin ih =>
      intro d hb
      have hc : c % 256 = c := Nat.mod_eq_of_lt (hb c (List.mem_cons_self c sin))
      have hsize : d.size = d.buffer_.data.length := rfl
      by_cases hlt : d.buffer_.size < d.buffer_.capacity
      · have hlt' : d.size < d.buffer_.capacity := hlt
        rw [fill, if_pos hlt, hc,
          ih { d with buffer_ := d.buffer_.push_back c }
            (fun x hx => hb x (List.mem_cons_of_mem c hx))]
        have hsz : ({ d with buffer_ := d.buffer_.push_back c } : Detector).size =
            d.size + 1 := by
          simp [size, CyclicDeque.size, CyclicDeque.push_back]
        have hcap : ({ d with buffer_ := d.buffer_.push_back c } : Detector).buffer_.capacity =
            d.buffer_.capacity := rfl
        have hmin : min (d.buffer_.capacity - d.size) (c :: sin).length =
            min (d.buffer_.capacity - (d.size + 1)) sin.length + 1 := by
          simp only [List.length_cons]
          omega
        rw [hsz, hcap, hmin]
        simp [CyclicDeque.push_back]
      · have hge : d.buffer_.capacity - d.size = 0 := by
          have : ¬ d.size < d.buffer_.capacity := hlt
          omega
        rw [fill, if_neg hlt, hge]
        simp

/-! ## Bounds on the scan -/

/-- The scan never gets past a forbidden byte: some prefix of the bytes scanned
is free of forbidden bytes and bounds the `text_length` reached. -/
theorem detectScan_clean_prefix (V : TextValidator) (tbl : List Bool) (l : List Nat) :
    ∀ (s : V.σ) (i tl : Nat), ∃ k, k ≤ l.length ∧
      (∀ b ∈ l.take k, forbidden tbl b = false) ∧
      detectScan V tbl l s i tl ≤ max tl (i + k) := by
  induction l with
  | nil => intro s i tl; exact ⟨0, Nat.le_refl _, by simp, by simp [detectScan]⟩
  | cons c rest ih =>
      intro s i tl
      by_cases hstop : (V.err (V.update s c) || forbidden tbl c) = true
      · refine ⟨0, Nat.zero_le _, by simp, ?_⟩
        rw [detectScan]
        simp only [hstop, if_true]
        exact Nat.le_max_left _ _
      · have hclean : forbidden tbl c = false := by
          cases hf : forbidden tbl c with
          | false => rfl
          | true => rw [hf, Bool.or_true] at hstop; exact absurd rfl hstop
        obtain ⟨k, hk, hall, hle⟩ := ih (V.update s c) ((i + 1) % 2 ^ 32)
          (if V.done (V.update s c) then (i + 1) % 2 ^ 32 else tl)
        refine ⟨k + 1, by simpa using hk, ?_, ?_⟩
        · intro b hb
          rw [List.take_succ_cons, List.mem_cons] at hb
          rcases hb with rfl | hb
          · exact hclean
          · exact hall b hb
        · rw [detectScan]
          simp only [hstop, Bool.false_eq_true, if_false]
          have hmod : (i + 1) % 2 ^ 32 ≤ i + 1 := Nat.mod_le _ _
          have htl : (if V.done (V.update s c) then (i + 1) % 2 ^ 32 else tl) ≤
              max tl (i + 1) := by
            split_ifs
            · exact le_trans hmod (Nat.le_max_right _ _)
            · exact Nat.le_max_left _ _
          refine le_trans hle ?_
          simp only [max_le_iff]
          constructor
          · refine le_trans htl ?_
            simp only [max_le_iff]
            exact ⟨Nat.le_max_left _ _, le_trans (by omega) (Nat.le_max_right _ _)⟩
          · exact le_trans (by omega) (Nat.le_max_right _ _)

/-- The `text_length` of a window is at most the length of a prefix of the
window that holds no forbidden byte. -/
theorem textLength_clean_prefix (V : TextValidator) (d : Detector) :
    ∃ k, k ≤ d.size ∧ (∀ b ∈ d.buffer_.data.take k, forbidden d.is_forbidden b = false) ∧
      textLength V d ≤ k := by
  obtain ⟨k, hk, hall, hle⟩ := detectScan_clean_prefix V d.is_forbidden d.buffer_.data V.init 0 0
  refine ⟨k, hk, hall, ?_⟩
  unfold textLength
  simpa using hle

/-- From `profile_length == 0` and a non-empty window, `detect` commits a text or
binary run of a length from 1 to the window size, and touches nothing else. -/
theorem detect_commit_shape (V : TextValidator) (d : Detector)
    (hne : d.buffer_.data ≠ []) (h0 : d.profile_length = 0) :
    ∃ (p : DataProfile) (n : Nat),
      detect V d = some (p, { d with profile := p, profile_length := n }) ∧
      1 ≤ n ∧ n ≤ d.size ∧ (p = DataProfile.kText ∨ p = DataProfile.kBinary) ∧
      (p = DataProfile.kText → n = textLength V d) := by
  have hpos : 1 ≤ d.size := by
    show 1 ≤ d.buffer_.data.length
    exact Nat.succ_le_of_lt (List.length_pos.2 hne)
  obtain ⟨k, hk, _, hle⟩ := textLength_clean_prefix V d
  by_cases hge : min d.size 100 ≤ textLength V d
  · refine ⟨DataProfile.kText, textLength V d, detect_of_long_text V d h0 hge, ?_, ?_,
      Or.inl rfl, fun _ => rfl⟩
    · have : 1 ≤ min d.size 100 := by omega
      omega
    · omega
  · refine ⟨DataProfile.kBinary, 1, detect_of_short_text V d h0 (not_le.1 hge),
      Nat.le_refl _, hpos, Or.inr rfl, ?_⟩
    intro h
    exact DataProfile.noConfusion h

/-! ### Claims on draining, filling and the scan -/

/-- C11 (monotonic drain): from `profile_length == 0` and a non-empty window,
`detect` commits a run of some length `n >= 1`; then, for every `k <= n`, the
first `k` calls of `read` all succeed (no assertion fails) and return, in order,
the first `k` bytes of the window, none of them `EOF`; after them
`profile_length` is `n - k`, positive while `k < n` and zero at `k = n`, and the
buffer holds the window less its first `k` bytes. -/
theorem detect_then_drain (V : TextValidator) (d : Detector)
    (hne : d.buffer_.data ≠ []) (h0 : d.profile_length = 0) :
    ∃ (p : DataProfile) (d1 : Detector), detect V d = some (p, d1) ∧
      1 ≤ d1.profile_length ∧
      ∀ k, k ≤ d1.profile_length →
        ∃ d2 : Detector,
          readMany k d1 = some ((d.buffer_.data.take k).map Int.ofNat, d2) ∧
          ((d.buffer_.data.take k).map Int.ofNat).length = k ∧
          EOF ∉ (d.buffer_.data.take k).map Int.ofNat ∧
          d2.profile_length = d1.profile_length - k ∧
          (k < d1.profile_length → 0 < d2.profile_length) ∧
          (k = d1.profile_length → d2.profile_length = 0) ∧
          d2.buffer_.data = d.buffer_.data.drop k ∧
          d2.size + k = d.size := by
  obtain ⟨p, n, hdet, h1, hn, _, _⟩ := detect_commit_shape V d hne h0
  refine ⟨p, { d with profile := p, profile_length := n }, hdet, h1, ?_⟩
  intro k hk
  have hk' : k ≤ n := hk
  have hsize : d.size = d.buffer_.data.length := rfl
  have hdrain := readMany_drain k { d with profile := p, profile_length := n } hk
    (by show k ≤ d.size; omega)
  refine ⟨_, hdrain, ?_, ?_, rfl, ?_, ?_, rfl, ?_⟩
  · rw [List.length_map, List.length_take]
    omega
  · intro hmem
    rw [List.mem_map] at hmem
    obtain ⟨x, _, hx⟩ := hmem
    have hnonneg : (0 : Int) ≤ Int.ofNat x := Int.ofNat_nonneg x
    rw [hx] at hnonneg
    exact absurd hnonneg (by decide)
  · intro hlt
    show 0 < n - k
    have : k < n := hlt
    omega
  · intro heq
    show n - k = 0
    have : k = n := heq
    omega
  · show (d.buffer_.data.drop k).length + k = d.size
    rw [List.length_drop]
    omega

/-- Witness of C11: a fresh detector holding the bytes of "Hi" and a NUL. -/
theorem detect_then_drain_witness :
    ((withWindow [72, 105, 0]).buffer_.data ≠ [] ∧ (withWindow [72, 105, 0]).profile_length = 0) ∧
    ∃ (p : DataProfile) (d1 : Detector),
      detect UTF8Decoder (withWindow [72, 105, 0]) = some (p, d1) ∧
      1 ≤ d1.profile_length ∧
      ∀ k, k ≤ d1.profile_length →
        ∃ d2 : Detector,
          readMany k d1 =
            some (((withWindow [72, 105, 0]).buffer_.data.take k).map Int.ofNat, d2) ∧
          (((withWindow [72, 105, 0]).buffer_.data.take k).map Int.ofNat).length = k ∧
          EOF ∉ ((withWindow [72, 105, 0]).buffer_.data.take k).map Int.ofNat ∧
          d2.profile_length = d1.profile_length - k ∧
          (k < d1.profile_length → 0 < d2.profile_length) ∧
          (k = d1.profile_length → d2.profile_length = 0) ∧
          d2.buffer_.data = (withWindow [72, 105, 0]).buffer_.data.drop k ∧
          d2.size + k = (withWindow [72, 105, 0]).size :=
  ⟨⟨by decide, by decide⟩,
    detect_then_drain UTF8Decoder (withWindow [72, 105, 0]) (by decide) (by decide)⟩

/-- C12 (fill respects capacity): `fill` is a total function of the state and
the source.  From a state with `size <= capacity` and a source of `m` bytes it
appends the first `min (capacity - size) m` bytes of the source, in order, to
the bytes already buffered, changes nothing else, leaves the other bytes in the
source, and keeps `size <= capacity`; with at least `capacity - size` bytes in
the source `size() == capacity()` afterwards, and the same holds from the state
a `read` leaves behind. -/
theorem fill_respects_capacity (d : Detector) (sin : List Nat)
    (hcap : d.size ≤ d.buffer_.capacity) (hsrc : ∀ c ∈ sin, c < 256) :
    (fill d sin).1 =
        { d with buffer_ :=
            ⟨d.buffer_.data ++ sin.take (min (d.buffer_.capacity - d.size) sin.length),
              d.buffer_.cap⟩ } ∧
      (fill d sin).2 = sin.drop (min (d.buffer_.capacity - d.size) sin.length) ∧
      (fill d sin).1.size = d.size + min (d.buffer_.capacity - d.size) sin.length ∧
      (fill d sin).1.size ≤ (fill d sin).1.buffer_.capacity ∧
      (d.buffer_.capacity - d.size ≤ sin.length →
        (fill d sin).1.size = (fill d sin).1.buffer_.capacity) ∧
      (∀ (c : Int) (d1 : Detector), d.read = some (c, d1) →
        d1.size ≤ d1.buffer_.capacity ∧
        (fill d1 sin).1.size ≤ (fill d1 sin).1.buffer_.capacity ∧
        (d1.buffer_.capacity - d1.size ≤ sin.length →
          (fill d1 sin).1.size = (fill d1 sin).1.buffer_.capacity)) := by
  have key : ∀ e : Detector, e.size ≤ e.buffer_.capacity →
      (fill e sin).1.size = e.size + min (e.buffer_.capacity - e.size) sin.length ∧
      (fill e sin).1.buffer_.capacity = e.buffer_.capacity := by
    intro e _
    rw [fill_spec sin e hsrc]
    constructor
    · show (e.buffer_.data ++ sin.take _).length = e.buffer_.data.length + _
      rw [List.length_append, List.length_take]
      have : e.size = e.buffer_.data.length := rfl
      omega
    · rfl
  obtain ⟨ks, kc⟩ := key d hcap
  refine ⟨by rw [fill_spec sin d hsrc], by rw [fill_spec sin d hsrc], ks, ?_, ?_, ?_⟩
  · rw [ks, kc]; omega
  · intro h; rw [ks, kc]; omega
  · intro c d1 hread
    have hd1 : d1.size ≤ d1.buffer_.capacity := by
      cases hdata : d.buffer_.data with
      | nil =>
          rw [read_nil d hdata] at hread
          have : d1 = d := ((Prod.mk.inj (Option.some.inj hread)).2).symm
          rw [this]
          exact hcap
      | cons b rest =>
          by_cases hpl : 0 < d.profile_length
          · rw [read_cons d b rest hdata hpl] at hread
            have hd : d1 =
                { d with
                  profile_length := d.profile_length - 1
                  buffer_ := ⟨rest, d.buffer_.cap⟩ } :=
              ((Prod.mk.inj (Option.some.inj hread)).2).symm
            rw [hd]
            show rest.length ≤ d.buffer_.cap
            have h1 : d.size = rest.length + 1 := by
              show d.buffer_.data.length = _
              rw [hdata]
              rfl
            have h2 : d.buffer_.capacity = d.buffer_.cap := rfl
            omega
          · have hne : d.empty = false := by
              simp [empty, size, CyclicDeque.size, hdata]
            simp [read, hne, hpl] at hread
    obtain ⟨ks1, kc1⟩ := key d1 hd1
    refine ⟨hd1, ?_, ?_⟩
    · rw [ks1, kc1]; omega
    · intro h; rw [ks1, kc1]; omega

/-- Witness of C12: a buffer of capacity 4 holding 2 bytes, and a source of 3. -/
theorem fill_respects_capacity_witness :
    (({ withWindow [1, 2] with buffer_ := ⟨[1, 2], 4⟩ } : Detector).size ≤
        ({ withWindow [1, 2] with buffer_ := ⟨[1, 2], 4⟩ } : Detector).buffer_.capacity ∧
      ∀ c ∈ [3, 4, 5], c < 256) ∧
    (fill { withWindow [1, 2] with buffer_ := ⟨[1, 2], 4⟩ } [3, 4, 5]).1.buffer_.data =
      [1, 2, 3, 4] ∧
    (fill { withWindow [1, 2] with buffer_ := ⟨[1, 2], 4⟩ } [3, 4, 5]).2 = [5] := by
  have h := fill_respects_capacity { withWindow [1, 2] with buffer_ := ⟨[1, 2], 4⟩ }
    [3, 4, 5] (by decide) (by decide)
  refine ⟨⟨by decide, by decide⟩, ?_, ?_⟩
  · rw [h.1]; decide
  · rw [h.2.1]; decide

/-- C15 (read and the end of the stream): `read` returns `EOF` exactly when the
buffer is empty, and then leaves the whole state as it was; on a non-empty
buffer with `profile_length > 0` it returns the front byte, a value from 0 to
255, removes that byte from the front and takes one off `profile_length`. -/
theorem read_eof_iff_empty (d : Detector) (hbytes : ∀ b ∈ d.buffer_.data, b < 256) :
    ((∃ d1, d.read = some (EOF, d1)) ↔ d.empty = true) ∧
      (d.empty = true → d.read = some (EOF, d)) ∧
      (∀ (b : Nat) (rest : List Nat), d.buffer_.data = b :: rest → 0 < d.profile_length →
        d.read = some ((b : Int),
          { d with profile_length := d.profile_length - 1,
                   buffer_ := ⟨rest, d.buffer_.cap⟩ }) ∧
        (0 : Int) ≤ (b : Int) ∧ (b : Int) ≤ 255 ∧ (b : Int) ≠ EOF) := by
  have hempty : d.empty = true → d.read = some (EOF, d) := by
    intro he
    simp [read, he]
  refine ⟨⟨?_, fun he => ⟨d, hempty he⟩⟩, hempty, ?_⟩
  · rintro ⟨d1, hread⟩
    cases hdata : d.buffer_.data with
    | nil => simp [empty, size, CyclicDeque.size, hdata]
    | cons b rest =>
        exfalso
        by_cases hpl : 0 < d.profile_length
        · rw [read_cons d b rest hdata hpl] at hread
          have hb : (b : Int) = EOF := (Prod.mk.inj (Option.some.inj hread)).1
          have hnn : (0 : Int) ≤ (b : Int) := Int.ofNat_nonneg b
          rw [hb] at hnn
          exact absurd hnn (by decide)
        · have hne : d.empty = false := by
            simp [empty, size, CyclicDeque.size, hdata]
          simp [read, hne, hpl] at hread
  · intro b rest hdata hpl
    have hb : b < 256 := hbytes b (by rw [hdata]; exact List.mem_cons_self b rest)
    have hnn : (0 : Int) ≤ (b : Int) := Int.ofNat_nonneg b
    refine ⟨read_cons d b rest hdata hpl, hnn, by omega, ?_⟩
    intro h
    rw [h] at hnn
    exact absurd hnn (by decide)

/-- Witness of C15: one byte of a run left on a two-byte buffer. -/
theorem read_eof_iff_empty_witness :
    (∀ b ∈ ({ withWindow [200, 7] with profile_length := 1 } : Detector).buffer_.data,
        b < 256) ∧
    read { withWindow [200, 7] with profile_length := 1 } =
      some (200, { withWindow [7] with profile_length := 0 }) ∧
    read (withWindow []) = some (EOF, withWindow []) := by
  have h := read_eof_iff_empty { withWindow [200, 7] with profile_length := 1 } (by decide)
  exact ⟨by decide, (h.2.2 200 [7] rfl (by decide)).1, by decide⟩

/-- C17 (the committed run fits the window): from `profile_length == 0` and a
non-empty buffer, whatever the text validator reports, `detect` returns `kText`
or `kBinary` and leaves `1 <= profile_length <= size()`, buffer untouched. -/
theorem detect_run_fits_window (V : TextValidator) (d : Detector)
    (hne : d.buffer_.data ≠ []) (h0 : d.profile_length = 0) :
    ∃ (p : DataProfile) (d1 : Detector), detect V d = some (p, d1) ∧
      1 ≤ d1.profile_length ∧ d1.profile_length ≤ d1.size ∧
      (p = DataProfile.kText ∨ p = DataProfile.kBinary) ∧
      d1.profile = p ∧ d1.buffer_ = d.buffer_ := by
  obtain ⟨p, n, hdet, h1, hn, hp, _⟩ := detect_commit_shape V d hne h0
  exact ⟨p, { d with profile := p, profile_length := n }, hdet, h1, hn, hp, rfl, rfl⟩

/-- Witness of C17: a window holding a truncated two-byte sequence. -/
theorem detect_run_fits_window_witness :
    ((withWindow [0xC3]).buffer_.data ≠ [] ∧ (withWindow [0xC3]).profile_length = 0) ∧
    ∃ (p : DataProfile) (d1 : Detector), detect UTF8Decoder (withWindow [0xC3]) = some (p, d1) ∧
      1 ≤ d1.profile_length ∧ d1.profile_length ≤ d1.size ∧
      (p = DataProfile.kText ∨ p = DataProfile.kBinary) ∧
      d1.profile = p ∧ d1.buffer_ = (withWindow [0xC3]).buffer_ :=
  ⟨⟨by decide, by decide⟩,
    detect_run_fits_window UTF8Decoder (withWindow [0xC3]) (by decide) (by decide)⟩

/-- C18 (a text run holds no forbidden byte): if `detect`, called with
`profile_length == 0`, commits `kText` with length `n`, then none of the first
`n` bytes of the window is forbidden, and `n` is at most the index of any
forbidden byte of the window; this whatever the text validator reports. -/
theorem detect_text_run_clean (V : TextValidator) (d d1 : Detector)
    (h0 : d.profile_length = 0) (hdet : detect V d = some (DataProfile.kText, d1)) :
    (∀ b ∈ d.buffer_.data.take d1.profile_length, forbidden d.is_forbidden b = false) ∧
      ∀ (j : Nat) (hj : j < d.buffer_.data.length),
        forbidden d.is_forbidden (d.buffer_.data.get ⟨j, hj⟩) = true →
          d1.profile_length ≤ j := by
  obtain ⟨k, hk, hall, hle⟩ := textLength_clean_prefix V d
  have hpl : d1.profile_length = textLength V d := by
    by_cases hge : min d.size 100 ≤ textLength V d
    · rw [detect_of_long_text V d h0 hge] at hdet
      have := (Prod.mk.inj (Option.some.inj hdet)).2
      rw [← this]
    · rw [detect_of_short_text V d h0 (not_le.1 hge)] at hdet
      exact DataProfile.noConfusion (Prod.mk.inj (Option.some.inj hdet)).1
  have hclean : ∀ b ∈ d.buffer_.data.take d1.profile_length,
      forbidden d.is_forbidden b = false := by
    intro b hb
    apply hall b
    have htt : d.buffer_.data.take d1.profile_length =
        (d.buffer_.data.take k).take d1.profile_length := by
      rw [List.take_take, Nat.min_eq_left (by rw [hpl]; exact hle)]
    rw [htt] at hb
    exact List.mem_of_mem_take hb
  refine ⟨hclean, ?_⟩
  intro j hj hf
  by_contra hlt
  have hjn : j < d1.profile_length := Nat.lt_of_not_le hlt
  have hmem : d.buffer_.data.get ⟨j, hj⟩ ∈ d.buffer_.data.take d1.profile_length := by
    rw [List.mem_take_iff_getElem]
    exact ⟨j, by rw [Nat.lt_min]; exact ⟨hjn, hj⟩, rfl⟩
  rw [hclean _ hmem] at hf
  exact Bool.noConfusion hf

/-- Witness of C18: the text window "Hi!" of a fresh detector. -/
theorem detect_text_run_clean_witness :
    ((withWindow [72, 105, 33]).profile_length = 0 ∧
      detect UTF8Decoder (withWindow [72, 105, 33]) =
        some (DataProfile.kText,
          { withWindow [72, 105, 33] with profile := DataProfile.kText, profile_length := 3 })) ∧
    ∀ b ∈ (withWindow [72, 105, 33]).buffer_.data.take 3,
      forbidden (withWindow [72, 105, 33]).is_forbidden b = false :=
  ⟨⟨by decide, by decide⟩,
    (detect_text_run_clean UTF8Decoder (withWindow [72, 105, 33])
      { withWindow [72, 105, 33] with profile := DataProfile.kText, profile_length := 3 }
      (by decide) (by decide)).1⟩

/-- C20 (empty window): with an empty buffer and `profile_length == 0`, `detect`
returns `kText` and leaves `profile_length` at 0, and a `read` that follows
returns `EOF`; this whatever the text validator. -/
theorem detect_empty_window (V : TextValidator) (d : Detector)
    (hbuf : d.buffer_.data = []) (h0 : d.profile_length = 0) :
    detect V d =
        some (DataProfile.kText,
          { d with profile := DataProfile.kText, profile_length := 0 }) ∧
      read { d with profile := DataProfile.kText, profile_length := 0 } =
        some (EOF, { d with profile := DataProfile.kText, profile_length := 0 }) := by
  have htl : textLength V d = 0 := by
    unfold textLength
    rw [hbuf]
    rfl
  have hsize : d.size = 0 := by
    show d.buffer_.data.length = 0
    rw [hbuf]
    rfl
  have hd := detect_of_long_text V d h0 (by rw [htl, hsize]; decide)
  rw [htl] at hd
  exact ⟨hd, read_nil _ hbuf⟩

/-- Witness of C20: a fresh detector with nothing buffered. -/
theorem detect_empty_window_witness :
    ((withWindow []).buffer_.data = [] ∧ (withWindow []).profile_length = 0) ∧
    detect UTF8Decoder (withWindow []) =
        some (DataProfile.kText,
          { withWindow [] with profile := DataProfile.kText, profile_length := 0 }) ∧
      read { withWindow [] with profile := DataProfile.kText, profile_length := 0 } =
        some (EOF, { withWindow [] with profile := DataProfile.kText, profile_length := 0 }) :=
  ⟨⟨by decide, by decide⟩, detect_empty_window UTF8Decoder (withWindow []) (by decide) (by decide)⟩

/-! ## `readBytes` -/

/-- Or-ing a value below `2 ^ k` into a value shifted left by `k` adds them. -/
theorem shiftLeft_lor_eq_add (hi lo k : Nat) (hlo : lo < 2 ^ k) :
    (hi <<< k) ||| lo = hi * 2 ^ k + lo := by
  rw [Nat.shiftLeft_eq, Nat.mul_comm, ← Nat.mul_add_lt_is_or hlo]

/-- One step `w = (w << 8) | b` of `readBytes` that does not overflow 32 bits. -/
theorem shl8_lor_byte (w b : Nat) (hw : w < 2 ^ 24) (hb : b < 256) :
    ((w <<< 8) % 2 ^ 32) ||| b = w * 256 + b := by
  have hs : w <<< 8 = w * 256 := by rw [Nat.shiftLeft_eq]
  have hmod : (w <<< 8) % 2 ^ 32 = w <<< 8 := Nat.mod_eq_of_lt (by rw [hs]; omega)
  rw [hmod, shiftLeft_lor_eq_add w b 8 (by simpa using hb)]
  norm_num

/-- Inside the window `at` yields the buffered byte. -/
theorem at_of_lt (d : Detector) (j : Nat) (hj : j < d.size) :
    d.«at» j = some (d.buffer_.data.getD j 0) := by
  have hlt : j < d.buffer_.data.length := hj
  unfold «at»
  simp [CyclicDeque.size, CyclicDeque.get?, hlt, List.getD_eq_getElem?_getD,
    List.getElem?_eq_getElem hlt]

/-- A buffered byte, read with a default of 0, is below 256 when every buffered
byte is. -/
theorem getD_lt_256 (d : Detector) (hwf : ∀ b ∈ d.buffer_.data, b < 256) (j : Nat) :
    d.buffer_.data.getD j 0 < 256 := by
  by_cases hj : j < d.buffer_.data.length
  · rw [List.getD_eq_getElem _ _ hj]
    exact hwf _ (List.getElem_mem hj)
  · rw [List.getD_eq_default _ _ (Nat.le_of_not_lt hj)]
    decide

/-- One iteration of the big-endian loop of `readBytes`, inside the window. -/
theorem readBytesBE_step (d : Detector) (hwf : ∀ b ∈ d.buffer_.data, b < 256)
    (pos n i w : Nat) (hin : pos + i < d.size) (h32 : pos + i < 2 ^ 32) (hw : w < 2 ^ 24) :
    readBytesBE d pos (n + 1) i w =
      readBytesBE d pos n (i + 1) (w * 256 + d.buffer_.data.getD (pos + i) 0) := by
  rw [readBytesBE, Nat.mod_eq_of_lt h32, at_of_lt d (pos + i) hin]
  simp only [shl8_lor_byte w _ hw (getD_lt_256 d hwf (pos + i))]

/-- One iteration of the little-endian loop of `readBytes`, inside the window. -/
theorem readBytesLE_step (d : Detector) (hwf : ∀ b ∈ d.buffer_.data, b < 256)
    (pos i w : Nat) (hin : pos + i < d.size) (h32 : pos + i + 1 < 2 ^ 32) (hw : w < 2 ^ 24) :
    readBytesLE d pos (i + 1) w =
      readBytesLE d pos i (w * 256 + d.buffer_.data.getD (pos + i) 0) := by
  have hidx : ((pos + (i + 1)) % 2 ^ 32 + (2 ^ 32 - 1)) % 2 ^ 32 = pos + i := by
    rw [Nat.mod_eq_of_lt (by omega : pos + (i + 1) < 2 ^ 32)]
    omega
  rw [readBytesLE, hidx, at_of_lt d (pos + i) hin]
  simp only [shl8_lor_byte w _ hw (getD_lt_256 d hwf (pos + i))]

/-- With no 32-bit wrap of `pos + bytes`, a range that leaves the window reads
as 0 without any call of `at`. -/
theorem readBytes_past_end (d : Detector) (pos bytes : Nat) (big_endian : Bool)
    (h32 : pos + bytes < 2 ^ 32) (hout : d.size < pos + bytes) :
    d.readBytes pos bytes big_endian = some 0 := by
  unfold readBytes
  rw [Nat.mod_eq_of_lt h32, if_neg (Nat.not_le.2 hout)]

/-! ### Claims on `readBytes`, the forbidden table and the codec below `2 ^ 24` -/

/-- C13 (readBytes out of range), evaluated where it breaks: on a window of 4
bytes, `pos = 0xFFFFFFFF` and 4 bytes asked, the range is outside the window,
yet the 32-bit sum `pos + bytes` wraps to 3, the guard passes, and in both byte
orders the loop calls `at` with index `0xFFFFFFFF`, whose assertion fails;
`readBytes` does not return 0. -/
theorem readBytes_guard_wraps :
    (withWindow [1, 2, 3, 4]).size < 0xFFFFFFFF + 4 ∧
    (0xFFFFFFFF + 4) % 2 ^ 32 ≤ (withWindow [1, 2, 3, 4]).size ∧
    (withWindow [1, 2, 3, 4]).«at» 0xFFFFFFFF = none ∧
    (withWindow [1, 2, 3, 4]).readBytes 0xFFFFFFFF 4 true = none ∧
    (withWindow [1, 2, 3, 4]).readBytes 0xFFFFFFFF 4 false = none := by
  decide

/-- C14 (readBytes value): with `1 <= width <= 4` and `pos + width <= size()`,
`readBytes(pos, width, true)` is the sum of `at(pos + i) * 256 ^ (width - 1 - i)`
and `readBytes(pos, width, false)` the sum of `at(pos + i) * 256 ^ i`, over
`i < width`.  (Buffered bytes are below 256 and the window is below `2 ^ 32`
bytes, as they are in the 64 KiB buffer of `uint8_t`.) -/
theorem readBytes_value (d : Detector) (pos width : Nat)
    (hwf : ∀ b ∈ d.buffer_.data, b < 256) (hsz : d.size < 2 ^ 32)
    (h1 : 1 ≤ width) (h4 : width ≤ 4) (hin : pos + width ≤ d.size) :
    d.readBytes pos width true =
        some (Finset.sum (Finset.range width)
          (fun i => d.buffer_.data.getD (pos + i) 0 * 256 ^ (width - 1 - i))) ∧
      d.readBytes pos width false =
        some (Finset.sum (Finset.range width)
          (fun i => d.buffer_.data.getD (pos + i) 0 * 256 ^ i)) ∧
      ∀ i, i < width → d.«at» (pos + i) = some (d.buffer_.data.getD (pos + i) 0) := by
  have hguard : (pos + width) % 2 ^ 32 ≤ d.size := by
    rw [Nat.mod_eq_of_lt (by omega)]
    exact hin
  have b0 := getD_lt_256 d hwf (pos + 0)
  have b1 := getD_lt_256 d hwf (pos + 1)
  have b2 := getD_lt_256 d hwf (pos + 2)
  have b3 := getD_lt_256 d hwf (pos + 3)
  refine ⟨?_, ?_, fun i hi => at_of_lt d (pos + i) (by omega)⟩
  · unfold readBytes
    rw [if_pos hguard, if_pos rfl]
    rcases width with _ | _ | _ | _ | _ | w
    · omega
    · rw [readBytesBE_step d hwf pos 0 0 0 (by omega) (by omega) (by norm_num), readBytesBE]
      simp [Finset.sum_range_succ]
    · rw [readBytesBE_step d hwf pos 1 0 0 (by omega) (by omega) (by norm_num),
        readBytesBE_step d hwf pos 0 1 _ (by omega) (by omega) (by omega), readBytesBE]
      simp [Finset.sum_range_succ]
    · rw [readBytesBE_step d hwf pos 2 0 0 (by omega) (by omega) (by norm_num),
        readBytesBE_step d hwf pos 1 1 _ (by omega) (by omega) (by omega),
        readBytesBE_step d hwf pos 0 2 _ (by omega) (by omega) (by omega), readBytesBE]
      simp [Finset.sum_range_succ]
      ring
    · rw [readBytesBE_step d hwf pos 3 0 0 (by omega) (by omega) (by norm_num),
        readBytesBE_step d hwf pos 2 1 _ (by omega) (by omega) (by omega),
        readBytesBE_step d hwf pos 1 2 _ (by omega) (by omega) (by omega),
        readBytesBE_step d hwf pos 0 3 _ (by omega) (by omega) (by omega), readBytesBE]
      simp [Finset.sum_range_succ]
      ring
    · omega
  · unfold readBytes
    rw [if_pos hguard, if_neg (by decide)]
    rcases width with _ | _ | _ | _ | _ | w
    · omega
    · rw [readBytesLE_step d hwf pos 0 0 (by omega) (by omega) (by norm_num), readBytesLE]
      simp [Finset.sum_range_succ]
    · rw [readBytesLE_step d hwf pos 1 0 (by omega) (by omega) (by norm_num),
        readBytesLE_step d hwf pos 0 _ (by omega) (by omega) (by omega), readBytesLE]
      simp [Finset.sum_range_succ]
      ring
    · rw [readBytesLE_step d hwf pos 2 0 (by omega) (by omega) (by norm_num),
        readBytesLE_step d hwf pos 1 _ (by omega) (by omega) (by omega),
        readBytesLE_step d hwf pos 0 _ (by omega) (by omega) (by omega), readBytesLE]
      simp [Finset.sum_range_succ]
      ring
    · rw [readBytesLE_step d hwf pos 3 0 (by omega) (by omega) (by norm_num),
        readBytesLE_step d hwf pos 2 _ (by omega) (by omega) (by omega),
        readBytesLE_step d hwf pos 1 _ (by omega) (by omega) (by omega),
        readBytesLE_step d hwf pos 0 _ (by omega) (by omega) (by omega), readBytesLE]
      simp [Finset.sum_range_succ]
      ring
    · omega

/-- Witness of C14: three bytes read at offset 1 of a 4-byte window. -/
theorem readBytes_value_witness :
    ((∀ b ∈ (withWindow [1, 2, 3, 4]).buffer_.data, b < 256) ∧
      (withWindow [1, 2, 3, 4]).size < 2 ^ 32 ∧ 1 ≤ 3 ∧ 3 ≤ 4 ∧
      1 + 3 ≤ (withWindow [1, 2, 3, 4]).size) ∧
    ((withWindow [1, 2, 3, 4]).readBytes 1 3 true =
        some (Finset.sum (Finset.range 3)
          (fun i => (withWindow [1, 2, 3, 4]).buffer_.data.getD (1 + i) 0 * 256 ^ (3 - 1 - i))) ∧
      (withWindow [1, 2, 3, 4]).readBytes 1 3 false =
        some (Finset.sum (Finset.range 3)
          (fun i => (withWindow [1, 2, 3, 4]).buffer_.data.getD (1 + i) 0 * 256 ^ i)) ∧
      ∀ i, i < 3 → (withWindow [1, 2, 3, 4]).«at» (1 + i) =
        some ((withWindow [1, 2, 3, 4]).buffer_.data.getD (1 + i) 0)) :=
  ⟨⟨by decide, by decide, by decide, by decide, by decide⟩,
    readBytes_value (withWindow [1, 2, 3, 4]) 1 3 (by decide) (by decide) (by decide)
      (by decide) (by decide)⟩

/-- C16 (forbidden-byte table): after `init`, a byte value `b` is forbidden
exactly when `b < 32` and `b` is none of 9, 10, 13 and 18; so NUL is forbidden,
tab, line feed and carriage return are not, and no byte from 32 on is. -/
theorem init_forbidden_table (d : Detector) (b : Nat) (hb : b < 256) :
    (forbidden (init d).is_forbidden b = true ↔
        (b < 32 ∧ b ≠ 9 ∧ b ≠ 10 ∧ b ≠ 13 ∧ b ≠ 18)) ∧
      forbidden (init d).is_forbidden 0 = true ∧
      forbidden (init d).is_forbidden 9 = false ∧
      forbidden (init d).is_forbidden 10 = false ∧
      forbidden (init d).is_forbidden 13 = false ∧
      (32 ≤ b → forbidden (init d).is_forbidden b = false) := by
  have htbl : (init d).is_forbidden = init_is_forbidden := rfl
  have key : ∀ c, c < 256 →
      (forbidden init_is_forbidden c = true ↔
        (c < 32 ∧ c ≠ 9 ∧ c ≠ 10 ∧ c ≠ 13 ∧ c ≠ 18)) := by
    decide
  rw [htbl]
  refine ⟨key b hb, by decide, by decide, by decide, by decide, ?_⟩
  intro h32
  cases hf : forbidden init_is_forbidden b with
  | false => rfl
  | true =>
      have := ((key b hb).1 hf).1
      omega

/-- Witness of C16 at the byte 18, below 32 and yet not forbidden. -/
theorem init_forbidden_table_witness :
    18 < 256 ∧ forbidden (init (withWindow [])).is_forbidden 18 = false := by
  have h := (init_forbidden_table (withWindow []) 18 (by decide)).1
  refine ⟨by decide, ?_⟩
  cases hf : forbidden (init (withWindow [])).is_forbidden 18 with
  | false => rfl
  | true => exact absurd rfl (h.1 hf).2.2.2.2

/-! ## The header codec below `2 ^ 24` -/

/-- The first byte stored by `write` gives back the tag and the count of length
bytes, for a tag below 64 and a count below 4. -/
theorem first_byte_fields : ∀ tag, tag < 64 → ∀ n, n < 4 →
    (((tag % 256) ||| (n <<< DetectedBlock.kLengthBytesShift)) % 256) &&&
        DetectedBlock.kDataProfileMask = tag ∧
      DetectedBlock.getLengthBytes
        (((tag % 256) ||| (n <<< DetectedBlock.kLengthBytesShift)) % 256) = n := by
  decide

/-- Or-ing a shifted value onto a value below `2 ^ k` adds them. -/
theorem lor_shiftLeft_eq_add (lo hi k : Nat) (hlo : lo < 2 ^ k) :
    lo ||| (hi <<< k) = lo + hi * 2 ^ k := by
  rw [Nat.lor_comm, shiftLeft_lor_eq_add hi lo k hlo, Nat.add_comm]

/-- Byte `k / 8` of a length, put back at its place by `read`. -/
theorem byte_back (len k : Nat) (hk : k ≤ 16) :
    (((len >>> k) % 256) <<< k) % 2 ^ 32 = (len / 2 ^ k % 256) * 2 ^ k := by
  rw [Nat.shiftLeft_eq, Nat.shiftRight_eq_div_pow]
  apply Nat.mod_eq_of_lt
  have hb : len / 2 ^ k % 256 < 256 := Nat.mod_lt _ (by decide)
  have hp : 2 ^ k ≤ 2 ^ 16 := Nat.pow_le_pow_right (by decide) hk
  calc len / 2 ^ k % 256 * 2 ^ k ≤ 255 * 2 ^ 16 :=
        Nat.mul_le_mul (by omega) hp
    _ < 2 ^ 32 := by norm_num

/-- The length rebuilt by `read` from one length byte. -/
theorem decode_one (len : Nat) (h : len ≤ 0xFF) :
    0 ||| (((len >>> 0) % 256) <<< 0) % 2 ^ 32 = len := by
  rw [Nat.zero_or, byte_back len 0 (by decide)]
  norm_num
  omega

/-- The length rebuilt by `read` from two length bytes. -/
theorem decode_two (len : Nat) (h : len ≤ 0xFFFF) :
    (0 ||| (((len >>> 0) % 256) <<< 0) % 2 ^ 32) ||| (((len >>> 8) % 256) <<< 8) % 2 ^ 32 =
      len := by
  have h0 : 0 ||| (((len >>> 0) % 256) <<< 0) % 2 ^ 32 = len % 256 := by
    rw [Nat.zero_or, byte_back len 0 (by decide)]
    norm_num
  have h8 : (((len >>> 8) % 256) <<< 8) % 2 ^ 32 = ((len >>> 8) % 256) <<< 8 := by
    rw [byte_back len 8 (by decide), Nat.shiftLeft_eq, Nat.shiftRight_eq_div_pow]
  have hb0 : len % 256 < 2 ^ 8 := Nat.mod_lt _ (by decide)
  rw [h0, h8, lor_shiftLeft_eq_add (len % 256) ((len >>> 8) % 256) 8 hb0,
    Nat.shiftRight_eq_div_pow]
  norm_num
  omega

/-- The length rebuilt by `read` from three length bytes. -/
theorem decode_three (len : Nat) (h : len ≤ 0xFFFFFF) :
    ((0 ||| (((len >>> 0) % 256) <<< 0) % 2 ^ 32) ||| (((len >>> 8) % 256) <<< 8) % 2 ^ 32) |||
        (((len >>> 16) % 256) <<< 16) % 2 ^ 32 = len := by
  have h0 : 0 ||| (((len >>> 0) % 256) <<< 0) % 2 ^ 32 = len % 256 := by
    rw [Nat.zero_or, byte_back len 0 (by decide)]
    norm_num
  have h8 : (((len >>> 8) % 256) <<< 8) % 2 ^ 32 = ((len >>> 8) % 256) <<< 8 := by
    rw [byte_back len 8 (by decide), Nat.shiftLeft_eq, Nat.shiftRight_eq_div_pow]
  have h16 : (((len >>> 16) % 256) <<< 16) % 2 ^ 32 = ((len >>> 16) % 256) <<< 16 := by
    rw [byte_back len 16 (by decide), Nat.shiftLeft_eq, Nat.shiftRight_eq_div_pow]
  have hlow : len % 256 + (len >>> 8) % 256 * 2 ^ 8 < 2 ^ 16 := by
    have a : len % 256 < 256 := Nat.mod_lt _ (by decide)
    have b : (len >>> 8) % 256 < 256 := Nat.mod_lt _ (by decide)
    norm_num
    omega
  have hb0 : len % 256 < 2 ^ 8 := Nat.mod_lt _ (by decide)
  rw [h0, h8, h16, lor_shiftLeft_eq_add (len % 256) ((len >>> 8) % 256) 8 hb0,
    lor_shiftLeft_eq_add _ ((len >>> 16) % 256) 16 hlow, Nat.shiftRight_eq_div_pow,
    Nat.shiftRight_eq_div_pow]
  norm_num
  omega

/-- C19 (round trip below `2 ^ 24`): for a block with profile tag below 64 and
`1 <= length <= 0xFFFFFF`, `read` applied to the bytes `write` stored gives back
the same tag and the same length, and returns the count `write` returned. -/
theorem DetectedBlock.read_write_below_two_pow_24 (h : DetectedBlock)
    (htag : h.profile_ < 64) (h1 : 1 ≤ h.length_) (h24 : h.length_ ≤ 0xFFFFFF) :
    DetectedBlock.read (DetectedBlock.write h).1 = some (h, (DetectedBlock.write h).2) := by
  obtain ⟨len, tag⟩ := h
  have hc := DetectedBlock.calculateLengthBytes_eq len
    (lt_of_le_of_lt h24 (by norm_num))
  by_cases r1 : len ≤ 0xFF
  · have hn : DetectedBlock.calculateLengthBytes len = 1 := by rw [hc, if_pos r1]
    obtain ⟨f1, f2⟩ := first_byte_fields tag htag 1 (by decide)
    simp only [DetectedBlock.write, hn, DetectedBlock.writeLoop, DetectedBlock.read, f1, f2,
      DetectedBlock.readLoop]
    exact congrArg (fun l => some ((⟨l, tag⟩ : DetectedBlock), 2)) (decode_one len r1)
  · by_cases r2 : len ≤ 0xFFFF
    · have hn : DetectedBlock.calculateLengthBytes len = 2 := by
        rw [hc, if_neg r1, if_pos r2]
      obtain ⟨f1, f2⟩ := first_byte_fields tag htag 2 (by decide)
      simp only [DetectedBlock.write, hn, DetectedBlock.writeLoop, DetectedBlock.read, f1, f2,
        DetectedBlock.readLoop]
      exact congrArg (fun l => some ((⟨l, tag⟩ : DetectedBlock), 3)) (decode_two len r2)
    · have hn : DetectedBlock.calculateLengthBytes len = 3 := by
        rw [hc, if_neg r1, if_neg r2, if_pos h24]
      obtain ⟨f1, f2⟩ := first_byte_fields tag htag 3 (by decide)
      simp only [DetectedBlock.write, hn, DetectedBlock.writeLoop, DetectedBlock.read, f1, f2,
        DetectedBlock.readLoop]
      exact congrArg (fun l => some ((⟨l, tag⟩ : DetectedBlock), 4)) (decode_three len h24)

/-- Witness of C19 at the block `(kProfileBinary, 0xFFFFFF)`. -/
theorem DetectedBlock.read_write_below_two_pow_24_witness :
    ((⟨0xFFFFFF, kProfileBinary⟩ : DetectedBlock).profile_ < 64 ∧
      1 ≤ (⟨0xFFFFFF, kProfileBinary⟩ : DetectedBlock).length_ ∧
      (⟨0xFFFFFF, kProfileBinary⟩ : DetectedBlock).length_ ≤ 0xFFFFFF) ∧
    DetectedBlock.read (DetectedBlock.write ⟨0xFFFFFF, kProfileBinary⟩).1 =
      some (⟨0xFFFFFF, kProfileBinary⟩, (DetectedBlock.write ⟨0xFFFFFF, kProfileBinary⟩).2) :=
  ⟨⟨by decide, by decide, by decide⟩,
    DetectedBlock.read_write_below_two_pow_24 ⟨0xFFFFFF, kProfileBinary⟩
      (by decide) (by decide) (by decide)⟩

end Detector
